import Mathlib

set_option linter.unnecessarySeqFocus false

/-!
Verification of the platformvm state/validator-set core
(vms/platformvm/state/state.go and vms/platformvm/validators/set.go).

Machine integers are modelled as `Nat` with explicit bound checks where the
Go code uses checked uint64 arithmetic; fallible code returns `Option` or
`Except`; Go maps are modelled as association lists; identifiers
(ids.ID, ids.NodeID, ids.ShortID) are modelled as `Nat`.
-/

namespace Platform

/-- Maximum value of a Go uint64, the domain of all weights and amounts. -/
def UINT64_MAX : Nat := 2 ^ 64 - 1

/-- Modelled from the spec: `safemath.Add64` (utils/math, not under src/) —
checked uint64 addition that "fails with an arithmetic error if accumulation
would overflow a 64-bit unsigned range". -/
def add64 (a b : Nat) : Option Nat :=
  if a + b ≤ UINT64_MAX then some (a + b) else none

/-- Modelled from the spec: `safemath.Sub` (utils/math, not under src/) —
checked uint64 subtraction, failing on underflow (arithmetic error taxonomy
of spec §7: "overflow/underflow in weight accumulation"). -/
def sub64 (a b : Nat) : Option Nat :=
  if b ≤ a then some (a - b) else none

/-- Modelled from the spec: `safemath.AbsDiff` (utils/math, not under src/) —
absolute difference, "the smaller is subtracted from the larger". -/
def absDiff (a b : Nat) : Nat :=
  if a > b then a - b else b - a

/-- `ValidatorWeightDiff` from state.go: a signed weight delta,
`{Decrease: bool, Amount: u64}`. -/
structure ValidatorWeightDiff where
  Decrease : Bool
  Amount : Nat
deriving DecidableEq, Repr

/-- `ValidatorWeightDiff.Add` from state.go lines 314-328: combine a signed
delta (`negative`, `amount`) into the accumulated diff. Same sign: checked
addition. Different signs: subtract the smaller from the larger; the sign
flag is reassigned in the branch where the accumulated amount does not
exceed the incoming amount. -/
def ValidatorWeightDiff.Add (v : ValidatorWeightDiff) (negative : Bool) (amount : Nat) :
    Option ValidatorWeightDiff :=
  if v.Decrease = negative then
    match add64 v.Amount amount with
    | none => none
    | some a => some { Decrease := v.Decrease, Amount := a }
  else if v.Amount > amount then
    some { Decrease := v.Decrease, Amount := v.Amount - amount }
  else
    some { Decrease := negative, Amount := absDiff v.Amount amount }

/-- The net signed effect of an accumulated weight diff. -/
def ValidatorWeightDiff.net (v : ValidatorWeightDiff) : Int :=
  if v.Decrease then -(v.Amount : Int) else (v.Amount : Int)

/-- The signed delta carried by one `Add(negative, amount)` call. -/
def delta (negative : Bool) (amount : Nat) : Int :=
  if negative then -(amount : Int) else (amount : Int)

/-- Apply a list of `Add` calls in order, failing if any one fails. -/
def addList (v : ValidatorWeightDiff) : List (Bool × Nat) → Option ValidatorWeightDiff
  | [] => some v
  | (negative, amount) :: rest =>
    match v.Add negative amount with
    | none => none
    | some v' => addList v' rest

/-- C1 counterexample: with accumulated diff `{Decrease := false, Amount := 5}`,
`Add(true, 5)` has a subtrahend that is NOT strictly larger than the
accumulated amount (`¬ 5 > 5`), yet the sign flag still flips to `true`:
the code reassigns the flag whenever the subtrahend is larger OR EQUAL,
refuting "flips ... exactly when the subtrahend amount was larger". -/
theorem add_flip_at_equal :
    ValidatorWeightDiff.Add { Decrease := false, Amount := 5 } true 5 =
      some { Decrease := true, Amount := 0 } ∧ ¬ (5 : Nat) > 5 := by
  decide

/-- C1 (amended): `Add(negative, amount)` behaves as follows. If `negative`
equals `v.Decrease` the amounts add (via checked uint64 addition). If the
signs differ, the smaller amount is subtracted from the larger
(`v.Amount` becomes `|v.Amount - amount|`) and the sign flag `v.Decrease`
is set to the new sign exactly when the subtrahend `amount` is larger than
OR EQUAL TO the accumulated `v.Amount` (at equality the resulting amount is
0 and the flag is still reassigned). -/
theorem add_combination (v : ValidatorWeightDiff) (negative : Bool) (amount : Nat) :
    v.Add negative amount =
      if v.Decrease = negative then
        (add64 v.Amount amount).map (fun a => { Decrease := v.Decrease, Amount := a })
      else
        some { Decrease := if v.Amount ≤ amount then negative else v.Decrease,
               Amount := max v.Amount amount - min v.Amount amount } := by
  rcases v with ⟨d, A⟩
  by_cases hsign : d = negative
  · subst hsign
    simp only [ValidatorWeightDiff.Add, if_pos rfl]
    cases h64 : add64 A amount <;> simp [h64]
  · simp only [ValidatorWeightDiff.Add, if_neg hsign]
    by_cases hlt : A > amount
    · have hle : ¬ A ≤ amount := by omega
      simp only [if_pos hlt, if_neg hle, Option.some.injEq, ValidatorWeightDiff.mk.injEq]
      exact ⟨by trivial, by omega⟩
    · have hle : A ≤ amount := by omega
      simp only [if_neg hlt, if_pos hle, absDiff, Option.some.injEq,
        ValidatorWeightDiff.mk.injEq]
      exact ⟨by trivial, by omega⟩

/-- One successful `Add` shifts the net signed effect by exactly the delta
of the call, regardless of the branch taken. -/
theorem add_net (v w : ValidatorWeightDiff) (negative : Bool) (amount : Nat)
    (h : v.Add negative amount = some w) :
    w.net = v.net + delta negative amount := by
  rcases v with ⟨d, A⟩
  simp only [ValidatorWeightDiff.Add] at h
  by_cases hsign : d = negative
  · rw [if_pos hsign] at h
    subst hsign
    cases h64 : add64 A amount with
    | none => simp [h64] at h
    | some a =>
      simp only [h64] at h
      have ha : a = A + amount := by
        simp only [add64] at h64
        by_cases hb : A + amount ≤ UINT64_MAX
        · rw [if_pos hb] at h64
          exact (Option.some.injEq _ _ ▸ h64).symm
        · rw [if_neg hb] at h64
          exact absurd h64 (by simp)
      subst ha
      simp only [Option.some.injEq] at h
      subst h
      simp only [ValidatorWeightDiff.net, delta]
      cases d <;> simp <;> omega
  · simp only [if_neg hsign] at h
    have hd : d = !negative := by cases d <;> cases negative <;> simp_all
    subst hd
    by_cases hlt : A > amount
    · simp only [if_pos hlt, Option.some.injEq] at h
      subst h
      simp only [ValidatorWeightDiff.net, delta]
      cases negative <;> simp <;> omega
    · simp only [if_neg hlt, Option.some.injEq] at h
      subst h
      simp only [ValidatorWeightDiff.net, delta, absDiff, if_neg hlt]
      cases negative <;> simp <;> omega

/-- Applying a whole list of `Add` calls shifts the net effect by the sum of
the deltas of the list. -/
theorem addList_net (l : List (Bool × Nat)) (v w : ValidatorWeightDiff)
    (h : addList v l = some w) :
    w.net = v.net + (l.map (fun p => delta p.1 p.2)).sum := by
  induction l generalizing v with
  | nil =>
    simp only [addList, Option.some.injEq] at h
    subst h
    simp
  | cons hd tl ih =>
    rcases hd with ⟨negative, amount⟩
    simp only [addList] at h
    cases hstep : v.Add negative amount with
    | none => simp [hstep] at h
    | some v' =>
      simp only [hstep] at h
      have hnet := add_net v v' negative amount hstep
      have := ih v' h
      rw [this, hnet]
      simp only [List.map_cons, List.sum_cons]
      ring

/-- C2: starting from a zero `ValidatorWeightDiff`, applying a fixed multiset
of `Add` calls whose partial combinations do not overflow yields the same
net signed delta regardless of order; the net equals the sum of the signed
deltas. -/
theorem addList_perm_net (l1 l2 : List (Bool × Nat)) (d1 d2 : ValidatorWeightDiff)
    (hperm : l1.Perm l2)
    (h1 : addList { Decrease := false, Amount := 0 } l1 = some d1)
    (h2 : addList { Decrease := false, Amount := 0 } l2 = some d2) :
    d1.net = d2.net ∧ d1.net = (l1.map (fun p => delta p.1 p.2)).sum := by
  have e1 := addList_net l1 _ _ h1
  have e2 := addList_net l2 _ _ h2
  have hz : ValidatorWeightDiff.net { Decrease := false, Amount := 0 } = 0 := by
    simp [ValidatorWeightDiff.net]
  rw [hz, zero_add] at e1 e2
  have hsum : (l1.map (fun p => delta p.1 p.2)).sum = (l2.map (fun p => delta p.1 p.2)).sum :=
    (hperm.map (fun p => delta p.1 p.2)).sum_eq
  exact ⟨by rw [e1, e2, hsum], e1⟩

/-- C2 witness: `{+10, -3, +2}` applied in two different orders both succeed
with net effect `+9`, the sum of the deltas. -/
theorem addList_perm_net_witness :
    (ValidatorWeightDiff.net { Decrease := false, Amount := 9 } =
      ValidatorWeightDiff.net { Decrease := false, Amount := 9 }) ∧
    ValidatorWeightDiff.net { Decrease := false, Amount := 9 } =
      ([((false : Bool), (10 : Nat)), (true, 3), (false, 2)].map
        (fun p => delta p.1 p.2)).sum :=
  addList_perm_net [(false, 10), (true, 3), (false, 2)]
    [(true, 3), (false, 2), (false, 10)]
    { Decrease := false, Amount := 9 } { Decrease := false, Amount := 9 }
    (by decide) (by decide) (by decide)

/-- C6: `Add(negative, amount)` fails if and only if the incoming sign equals
the accumulated sign and the uint64 sum overflows; with differing signs the
call never fails. -/
theorem add_overflow_iff (v : ValidatorWeightDiff) (negative : Bool) (amount : Nat) :
    v.Add negative amount = none ↔
      (v.Decrease = negative ∧ UINT64_MAX < v.Amount + amount) := by
  rcases v with ⟨d, A⟩
  simp only [ValidatorWeightDiff.Add, add64]
  by_cases hsign : d = negative
  · subst hsign
    by_cases hb : A + amount ≤ UINT64_MAX
    · simp only [if_pos rfl, if_pos hb]
      simp
      omega
    · simp only [if_pos rfl, if_neg hb]
      simp
      omega
  · by_cases hlt : A > amount <;> simp [hsign, hlt]

/-! ### Historical validator-set reconstruction (validators/set.go, state.go) -/

/-- Node identifiers (ids.NodeID), modelled as naturals. -/
abbrev NodeID := Nat

/-- `validators.GetValidatorOutput`: one entry of the reconstructed
validator map (field names lowercased for Lean). -/
structure GetValidatorOutput where
  nodeID : NodeID
  publicKey : Option Nat
  weight : Nat
deriving DecidableEq, Repr

/-- Go map lookup, on an association-list model of a map. -/
def alGet {α : Type} [DecidableEq α] {β : Type} : List (α × β) → α → Option β
  | [], _ => none
  | (k, v) :: t, n => if k = n then some v else alGet t n

/-- Go map `delete`: drop every binding of the key. -/
def alErase {α : Type} [DecidableEq α] {β : Type} : List (α × β) → α → List (α × β)
  | [], _ => []
  | (k, v) :: t, n => if k = n then alErase t n else (k, v) :: alErase t n

/-- Go map assignment: bind the key, dropping any previous binding. -/
def alSet {α : Type} [DecidableEq α] {β : Type}
    (l : List (α × β)) (n : α) (v : β) : List (α × β) :=
  (n, v) :: alErase l n

/-- The in-memory validator map `map[ids.NodeID]*GetValidatorOutput`. -/
abbrev VdrMap := List (NodeID × GetValidatorOutput)

/-- `applyWeightDiff` from state.go lines 1051-1086 (the same per-node logic
is inlined in set.go lines 206-239): undo one weight diff for one node —
a node absent from the map starts at weight 0; a `Decrease` diff is undone
by checked addition, an increase by checked subtraction; a resulting weight
of exactly 0 deletes the node from the map. -/
def applyWeightDiff (vdrs : VdrMap) (nodeID : NodeID) (weightDiff : ValidatorWeightDiff) :
    Option VdrMap :=
  let vdr := match alGet vdrs nodeID with
    | some v => v
    | none => { nodeID := nodeID, publicKey := none, weight := 0 }
  match (if weightDiff.Decrease then add64 vdr.weight weightDiff.Amount
         else sub64 vdr.weight weightDiff.Amount) with
  | none => none
  | some w =>
    if w = 0 then some (alErase vdrs nodeID)
    else some (alSet vdrs nodeID { vdr with weight := w })

/-- The weight-diff loop of set.go lines 206-239: apply every weight diff
recorded at one height, failing on the first arithmetic error. -/
def applyWeightDiffs (vdrSet : VdrMap) :
    List (NodeID × ValidatorWeightDiff) → Option VdrMap
  | [] => some vdrSet
  | (n, wd) :: t =>
    match applyWeightDiff vdrSet n wd with
    | none => none
    | some m => applyWeightDiffs m t

/-- The public-key-diff loop of set.go lines 242-255: restore the prior BLS
key of every node present in the map; nodes outside the map are ignored. -/
def applyPkDiffs (vdrSet : VdrMap) : List (NodeID × Option Nat) → VdrMap
  | [] => vdrSet
  | (n, pk) :: t =>
    applyPkDiffs
      (match alGet vdrSet n with
       | none => vdrSet
       | some v => alSet vdrSet n { v with publicKey := pk }) t

/-- One iteration of the descending height loop of `GetValidatorSet`
(set.go lines 200-255): weight diffs of the height, then key diffs. -/
def processHeight (vdrSet : VdrMap) (wds : List (NodeID × ValidatorWeightDiff))
    (pks : List (NodeID × Option Nat)) : Option VdrMap :=
  match applyWeightDiffs vdrSet wds with
  | none => none
  | some m => some (applyPkDiffs m pks)

/-- The whole backward replay: walk the per-height diffs (highest height
first) down to the queried height. -/
def replay (vdrSet : VdrMap) :
    List (List (NodeID × ValidatorWeightDiff) × List (NodeID × Option Nat)) →
      Option VdrMap
  | [] => some vdrSet
  | (wds, pks) :: rest =>
    match processHeight vdrSet wds pks with
    | none => none
    | some m => replay m rest

/-- The heights visited by `for i := lastAcceptedHeight; i > height; i--`,
in descending order. -/
def heightsDesc (top bottom : Nat) : List Nat :=
  (List.range' (bottom + 1) (top - bottom)).reverse

/-- Errors surfaced by `GetValidatorSet`: `database.ErrNotFound`, or an
arithmetic error from `safemath` during replay. -/
inductive VErr where
  | notFound
  | arith
deriving DecidableEq, Repr

/-- State consulted by the validator-set reconstructor (`vs.cfg.Validators`,
the per-subnet height cache, the last accepted height and the persisted
per-height diff logs), for one fixed subnet. Storage reads are modelled as
total lookups (a height with no persisted diffs yields the empty list). -/
structure ValidatorsSetState where
  cache : List (Nat × VdrMap)
  lastAcceptedHeight : Nat
  currentVdrs : VdrMap
  weightDiffs : Nat → List (NodeID × ValidatorWeightDiff)
  pkDiffs : Nat → List (NodeID × Option Nat)

/-- `set.GetValidatorSet` from set.go lines 153-264: serve from the height
cache when possible; fail with NotFound when the height exceeds the last
accepted height; otherwise replay the diffs backward from the current
validator set and cache the result. Returns the reply and the state with
the possibly-updated cache. -/
def getValidatorSet (st : ValidatorsSetState) (height : Nat) :
    Except VErr VdrMap × ValidatorsSetState :=
  match alGet st.cache height with
  | some validatorSet => (Except.ok validatorSet, st)
  | none =>
    if st.lastAcceptedHeight < height then
      (Except.error VErr.notFound, st)
    else
      match replay st.currentVdrs
          ((heightsDesc st.lastAcceptedHeight height).map
            (fun i => (st.weightDiffs i, st.pkDiffs i))) with
      | none => (Except.error VErr.arith, st)
      | some vdrSet =>
        (Except.ok vdrSet, { st with cache := alSet st.cache height vdrSet })

/-- No entry of the validator map carries weight 0. -/
def noZeroWeights : VdrMap → Bool
  | [] => true
  | (_, v) :: t => (v.weight != 0) && noZeroWeights t

/-- A lookup hit comes from a binding of the list. -/
theorem alGet_mem {α : Type} [DecidableEq α] {β : Type}
    (l : List (α × β)) (k : α) (v : β) (h : alGet l k = some v) : (k, v) ∈ l := by
  induction l with
  | nil => simp [alGet] at h
  | cons hd tl ih =>
    rcases hd with ⟨k', v'⟩
    simp only [alGet] at h
    by_cases hk : k' = k
    · subst hk
      rw [if_pos rfl] at h
      simp only [Option.some.injEq] at h
      subst h
      exact List.mem_cons_self _ _
    · rw [if_neg hk] at h
      exact List.mem_cons_of_mem _ (ih h)

/-- Deleting a node preserves the zero-weight-free invariant. -/
theorem noZeroWeights_alErase (m : VdrMap) (n : NodeID)
    (h : noZeroWeights m = true) : noZeroWeights (alErase m n) = true := by
  induction m with
  | nil => simpa [alErase] using h
  | cons hd tl ih =>
    rcases hd with ⟨k, v⟩
    simp only [noZeroWeights, Bool.and_eq_true] at h
    simp only [alErase]
    by_cases hk : k = n
    · rw [if_pos hk]
      exact ih h.2
    · rw [if_neg hk]
      simp only [noZeroWeights, Bool.and_eq_true]
      exact ⟨h.1, ih h.2⟩

/-- Binding a node to a nonzero weight preserves the invariant. -/
theorem noZeroWeights_alSet (m : VdrMap) (n : NodeID) (v : GetValidatorOutput)
    (h : noZeroWeights m = true) (hv : v.weight ≠ 0) :
    noZeroWeights (alSet m n v) = true := by
  simp only [alSet, noZeroWeights, Bool.and_eq_true]
  exact ⟨by simpa using hv, noZeroWeights_alErase m n h⟩

/-- Under the invariant, every lookup hit has nonzero weight. -/
theorem noZeroWeights_alGet (m : VdrMap) (n : NodeID) (v : GetValidatorOutput)
    (h : noZeroWeights m = true) (hget : alGet m n = some v) : v.weight ≠ 0 := by
  induction m with
  | nil => simp [alGet] at hget
  | cons hd tl ih =>
    rcases hd with ⟨k, v'⟩
    simp only [noZeroWeights, Bool.and_eq_true] at h
    simp only [alGet] at hget
    by_cases hk : k = n
    · rw [if_pos hk] at hget
      simp only [Option.some.injEq] at hget
      subst hget
      simpa using h.1
    · rw [if_neg hk] at hget
      exact ih h.2 hget

/-- `applyWeightDiff` preserves the invariant: a node driven to exactly 0 is
deleted from the map rather than kept with weight 0. -/
theorem applyWeightDiff_noZero (m m' : VdrMap) (n : NodeID) (wd : ValidatorWeightDiff)
    (h : noZeroWeights m = true) (happ : applyWeightDiff m n wd = some m') :
    noZeroWeights m' = true := by
  simp only [applyWeightDiff] at happ
  split at happ
  · exact absurd happ (by simp)
  · split at happ
    · simp only [Option.some.injEq] at happ
      subst happ
      exact noZeroWeights_alErase m n h
    · next hw0 =>
      simp only [Option.some.injEq] at happ
      subst happ
      exact noZeroWeights_alSet m n _ h (by simpa using hw0)

/-- The per-height weight-diff loop preserves the invariant. -/
theorem applyWeightDiffs_noZero (l : List (NodeID × ValidatorWeightDiff))
    (m m' : VdrMap) (h : noZeroWeights m = true)
    (happ : applyWeightDiffs m l = some m') : noZeroWeights m' = true := by
  induction l generalizing m with
  | nil =>
    simp only [applyWeightDiffs, Option.some.injEq] at happ
    subst happ
    exact h
  | cons hd tl ih =>
    rcases hd with ⟨n, wd⟩
    simp only [applyWeightDiffs] at happ
    cases hstep : applyWeightDiff m n wd with
    | none => rw [hstep] at happ; exact absurd happ (by simp)
    | some m1 =>
      rw [hstep] at happ
      exact ih m1 (applyWeightDiff_noZero m m1 n wd h hstep) happ

/-- The public-key-diff loop never changes a weight, so it preserves the
invariant. -/
theorem applyPkDiffs_noZero (l : List (NodeID × Option Nat)) (m : VdrMap)
    (h : noZeroWeights m = true) : noZeroWeights (applyPkDiffs m l) = true := by
  induction l generalizing m with
  | nil => simpa [applyPkDiffs] using h
  | cons hd tl ih =>
    rcases hd with ⟨n, pk⟩
    simp only [applyPkDiffs]
    cases hget : alGet m n with
    | none => simpa [hget] using ih m h
    | some v =>
      simp only [hget]
      refine ih _ (noZeroWeights_alSet m n _ h ?_)
      exact noZeroWeights_alGet m n v h hget

/-- One backward step preserves the invariant. -/
theorem processHeight_noZero (m m' : VdrMap)
    (wds : List (NodeID × ValidatorWeightDiff)) (pks : List (NodeID × Option Nat))
    (h : noZeroWeights m = true) (happ : processHeight m wds pks = some m') :
    noZeroWeights m' = true := by
  unfold processHeight at happ
  cases hw : applyWeightDiffs m wds with
  | none => rw [hw] at happ; exact absurd happ (by simp)
  | some m1 =>
    rw [hw] at happ
    simp only [Option.some.injEq] at happ
    subst happ
    exact applyPkDiffs_noZero pks m1 (applyWeightDiffs_noZero wds m m1 h hw)

/-- The whole backward replay preserves the invariant. -/
theorem replay_noZero
    (hs : List (List (NodeID × ValidatorWeightDiff) × List (NodeID × Option Nat)))
    (m m' : VdrMap) (h : noZeroWeights m = true) (happ : replay m hs = some m') :
    noZeroWeights m' = true := by
  induction hs generalizing m with
  | nil =>
    simp only [replay, Option.some.injEq] at happ
    subst happ
    exact h
  | cons hd tl ih =>
    rcases hd with ⟨wds, pks⟩
    simp only [replay] at happ
    cases hstep : processHeight m wds pks with
    | none => rw [hstep] at happ; exact absurd happ (by simp)
    | some m1 =>
      rw [hstep] at happ
      exact ih m1 (processHeight_noZero m m1 wds pks h hstep) happ

/-- C3: whenever `GetValidatorSet` succeeds — given that the live validator
set carries no zero weights and every cached reply carries none — the
returned map contains no node with weight 0: a node whose replayed weight
reaches exactly 0 is deleted before the result is returned or cached. -/
theorem getValidatorSet_no_zero_weight (st : ValidatorsSetState) (height : Nat)
    (m : VdrMap)
    (hcur : noZeroWeights st.currentVdrs = true)
    (hcache : st.cache.all (fun p => noZeroWeights p.2) = true)
    (h : (getValidatorSet st height).1 = Except.ok m) :
    noZeroWeights m = true := by
  unfold getValidatorSet at h
  cases hget : alGet st.cache height with
  | some m' =>
    rw [hget] at h
    simp only [Except.ok.injEq] at h
    subst h
    have hmem := alGet_mem st.cache height m' hget
    have := List.all_eq_true.mp hcache _ hmem
    simpa using this
  | none =>
    rw [hget] at h
    by_cases hh : st.lastAcceptedHeight < height
    · rw [if_pos hh] at h
      simp at h
    · rw [if_neg hh] at h
      cases hrep : replay st.currentVdrs
          ((heightsDesc st.lastAcceptedHeight height).map
            (fun i => (st.weightDiffs i, st.pkDiffs i))) with
      | none => rw [hrep] at h; simp at h
      | some m' =>
        rw [hrep] at h
        simp only [Except.ok.injEq] at h
        subst h
        exact replay_noZero _ _ _ hcur hrep

/-- C3 witness: a two-validator current set replayed one height back, where
the diff drives node 2 to weight exactly 0; the reply omits node 2 and has
no zero-weight entry. -/
theorem getValidatorSet_no_zero_weight_witness :
    noZeroWeights
      [(1, { nodeID := 1, publicKey := some 42, weight := 10 : GetValidatorOutput })] =
      true :=
  getValidatorSet_no_zero_weight
    { cache := []
      lastAcceptedHeight := 1
      currentVdrs := [(1, { nodeID := 1, publicKey := some 42, weight := 10 }),
                      (2, { nodeID := 2, publicKey := none, weight := 7 })]
      weightDiffs := fun i => if i = 1 then [(2, { Decrease := false, Amount := 7 })] else []
      pkDiffs := fun _ => [] }
    0
    [(1, { nodeID := 1, publicKey := some 42, weight := 10 })]
    (by decide) (by decide) rfl

/-- C4: when every cached height is bounded by the last accepted height, a
query for a height strictly greater than the last accepted height fails
with `database.ErrNotFound` instead of returning a validator map. -/
theorem getValidatorSet_notFound (st : ValidatorsSetState) (height : Nat)
    (hcache : st.cache.all (fun p => decide (p.1 ≤ st.lastAcceptedHeight)) = true)
    (hh : st.lastAcceptedHeight < height) :
    (getValidatorSet st height).1 = Except.error VErr.notFound := by
  unfold getValidatorSet
  cases hget : alGet st.cache height with
  | some m =>
    have hmem := alGet_mem st.cache height m hget
    have hle := List.all_eq_true.mp hcache _ hmem
    simp only [decide_eq_true_eq] at hle
    omega
  | none => simp [if_pos hh]

/-- C4 witness: at last accepted height 3 with an empty cache, querying
height 5 fails with NotFound. -/
theorem getValidatorSet_notFound_witness :
    (getValidatorSet
      { cache := []
        lastAcceptedHeight := 3
        currentVdrs := [(1, { nodeID := 1, publicKey := none, weight := 4 })]
        weightDiffs := fun _ => []
        pkDiffs := fun _ => [] } 5).1 = Except.error VErr.notFound :=
  getValidatorSet_notFound
    { cache := []
      lastAcceptedHeight := 3
      currentVdrs := [(1, { nodeID := 1, publicKey := none, weight := 4 })]
      weightDiffs := fun _ => []
      pkDiffs := fun _ => [] }
    5 (by decide) (by decide)

/-! ### Commit-time weight-diff computation and persistence (state.go) -/

/-- Status of a validator inside one commit epoch's diff
(`validatorStatus` of `diffValidator`). -/
inductive DiffValidatorStatus where
  | added
  | deleted
  | unmodified
deriving DecidableEq, Repr

/-- `diffValidator` from state.go, restricted to the fields
`processCurrentStakers` reads when computing weight diffs: the validator's
status and weight and the weights of the delegators added and deleted in
this epoch. -/
structure diffValidator where
  validatorStatus : DiffValidatorStatus
  validatorWeight : Nat
  addedDelegators : List Nat
  deletedDelegators : List Nat
deriving DecidableEq, Repr

/-- A weight-diff key: `(subnetID, nodeID)` (`weightDiffKey` in state.go). -/
abbrev WeightDiffKey := Nat × Nat

/-- The weight-diff computation of `processCurrentStakers` (state.go lines
1661-1753) for one validator diff: start from
`{Decrease: status == deleted, Amount: validator weight or 0}`, then
`Add(false, w)` for every added delegator and `Add(true, w)` for every
deleted one; any arithmetic error aborts. -/
def processValidatorWeightDiff (d : diffValidator) : Option ValidatorWeightDiff :=
  addList
    { Decrease := d.validatorStatus = DiffValidatorStatus.deleted
      Amount := match d.validatorStatus with
        | DiffValidatorStatus.added => d.validatorWeight
        | DiffValidatorStatus.deleted => d.validatorWeight
        | DiffValidatorStatus.unmodified => 0 }
    (d.addedDelegators.map (fun w => (false, w)) ++
      d.deletedDelegators.map (fun w => (true, w)))

/-- The `outputWeights` map produced by `processCurrentStakers`: one entry
per `(subnet, node)` of the epoch's validator diffs — an entry exists even
when the net change is zero. -/
def processCurrentStakersWeights (diffs : List (WeightDiffKey × diffValidator)) :
    Option (List (WeightDiffKey × ValidatorWeightDiff)) :=
  match diffs with
  | [] => some []
  | (k, d) :: t =>
    match processValidatorWeightDiff d, processCurrentStakersWeights t with
    | some w, some rest => some ((k, w) :: rest)
    | _, _ => none

/-- The composite diff-log key `(subnetID ‖ inverted height ‖ nodeID)`
written by `marshalDiffKey`: the height is stored bit-inverted
(complement within uint64) so that descending iteration is a forward scan. -/
def marshalDiffKey (subnetID height nodeID : Nat) : Nat × Nat × Nat :=
  (subnetID, UINT64_MAX - height, nodeID)

/-- `state.writeWeightDiffs` from state.go lines 2132-2146, modelled as the
list of key/value pairs put into the flat weight-diff database: entries
whose `Amount` is 0 are skipped (`continue`) and never persisted. -/
def writeWeightDiffs (height : Nat)
    (weightDiffs : List (WeightDiffKey × ValidatorWeightDiff)) :
    List ((Nat × Nat × Nat) × ValidatorWeightDiff) :=
  weightDiffs.filterMap (fun p =>
    if p.2.Amount = 0 then none
    else some (marshalDiffKey p.1.1 height p.1.2, p.2))

/-- C5: whenever `processCurrentStakers` succeeds, its in-memory weight-diff
map has exactly one entry per validator diff of the epoch (so a net-zero
diff is still computed and present), while `writeWeightDiffs` persists
exactly the entries with nonzero `Amount` — a net-zero diff is never
written to storage. -/
theorem writeWeightDiffs_skips_zero (diffs : List (WeightDiffKey × diffValidator))
    (out : List (WeightDiffKey × ValidatorWeightDiff)) (height : Nat)
    (h : processCurrentStakersWeights diffs = some out) :
    out.map Prod.fst = diffs.map Prod.fst ∧
    writeWeightDiffs height out =
      (out.filter (fun p => p.2.Amount != 0)).map
        (fun p => (marshalDiffKey p.1.1 height p.1.2, p.2)) := by
  constructor
  · induction diffs generalizing out with
    | nil =>
      simp only [processCurrentStakersWeights, Option.some.injEq] at h
      subst h
      simp
    | cons hd tl ih =>
      rcases hd with ⟨k, d⟩
      simp only [processCurrentStakersWeights] at h
      cases hw : processValidatorWeightDiff d with
      | none => rw [hw] at h; simp at h
      | some w =>
        rw [hw] at h
        cases hrest : processCurrentStakersWeights tl with
        | none => rw [hrest] at h; simp at h
        | some rest =>
          rw [hrest] at h
          simp only [Option.some.injEq] at h
          subst h
          simp only [List.map_cons, List.cons.injEq]
          exact ⟨by trivial, ih rest hrest⟩
  · clear h
    induction out with
    | nil => simp [writeWeightDiffs]
    | cons hd tl ih =>
      rcases hd with ⟨k, w⟩
      by_cases hz : w.Amount = 0 <;>
        simpa [writeWeightDiffs, List.filterMap_cons, List.filter_cons, hz] using ih

/-- C5 witness: a validator untouched in the epoch whose delegator changes
cancel (`+5` then `-5`) yields the in-memory entry
`{Decrease := true, Amount := 0}` under its key, and nothing is persisted
for that height. -/
theorem writeWeightDiffs_skips_zero_witness :
    [((0, 7), { Decrease := true, Amount := 0 : ValidatorWeightDiff })].map Prod.fst =
      [((0, 7),
        { validatorStatus := DiffValidatorStatus.unmodified
          validatorWeight := 0
          addedDelegators := [5]
          deletedDelegators := [5] : diffValidator })].map Prod.fst ∧
    writeWeightDiffs 4 [((0, 7), { Decrease := true, Amount := 0 })] =
      ([((0, 7), { Decrease := true, Amount := 0 : ValidatorWeightDiff })].filter
        (fun p => p.2.Amount != 0)).map
        (fun p => (marshalDiffKey p.1.1 4 p.1.2, p.2)) :=
  writeWeightDiffs_skips_zero
    [((0, 7), { validatorStatus := DiffValidatorStatus.unmodified
                validatorWeight := 0
                addedDelegators := [5]
                deletedDelegators := [5] })]
    [((0, 7), { Decrease := true, Amount := 0 })]
    4 (by decide)

/-! ### Commit protocol (state.go lines 1464-1488) -/

/-- The externally observable steps of a commit cycle: the internal
`write(updateValidators, height)`, obtaining the batch from
`baseDB.CommitBatch`, flushing it with `batch.Write`, and `Abort`. -/
inductive CommitEvent where
  | writeOp (updateValidators : Bool) (height : Nat)
  | commitBatchOp
  | batchWriteOp
  | abortOp
deriving DecidableEq, Repr

/-- Outcomes of the fallible collaborators of `Commit`, supplied by the
environment: `s.write`, `baseDB.CommitBatch` and `batch.Write` each either
succeed (`none`) or fail with an error value. -/
structure CommitEnv where
  writeErr : Option Nat
  commitBatchErr : Option Nat
  batchWriteErr : Option Nat

/-- `state.CommitBatch` from state.go lines 1481-1488: `write` is invoked
with `updateValidators = true` and `s.lastAcceptedHeight`; on success the
batch is requested from the versioned base database. Returns the trace of
steps performed and the error, if any. -/
def CommitBatchRun (lastAcceptedHeight : Nat) (env : CommitEnv) :
    List CommitEvent × Option Nat :=
  match env.writeErr with
  | some e => ([CommitEvent.writeOp true lastAcceptedHeight], some e)
  | none =>
    ([CommitEvent.writeOp true lastAcceptedHeight, CommitEvent.commitBatchOp],
      env.commitBatchErr)

/-- `state.Commit` from state.go lines 1464-1470: `defer s.Abort()`, then
`CommitBatch`, then `batch.Write()`; the deferred `Abort` runs after the
function body on success and on error alike. -/
def CommitRun (lastAcceptedHeight : Nat) (env : CommitEnv) :
    List CommitEvent × Option Nat :=
  match CommitBatchRun lastAcceptedHeight env with
  | (evs, some e) => (evs ++ [CommitEvent.abortOp], some e)
  | (evs, none) =>
    (evs ++ [CommitEvent.batchWriteOp, CommitEvent.abortOp], env.batchWriteErr)

/-- C7: every `Commit` begins with `write(updateValidators=true,
lastAcceptedHeight)` and ends with `Abort` — on success and on error alike —
and on the all-success path the full cycle is write, commit-batch, flush,
abort. -/
theorem commit_protocol (lastAcceptedHeight : Nat) (env : CommitEnv) :
    (∃ pre, (CommitRun lastAcceptedHeight env).1 = pre ++ [CommitEvent.abortOp]) ∧
    (CommitRun lastAcceptedHeight env).1.head? =
      some (CommitEvent.writeOp true lastAcceptedHeight) ∧
    (env.writeErr = none → env.commitBatchErr = none →
      CommitRun lastAcceptedHeight env =
        ([CommitEvent.writeOp true lastAcceptedHeight, CommitEvent.commitBatchOp,
          CommitEvent.batchWriteOp, CommitEvent.abortOp], env.batchWriteErr)) := by
  rcases env with ⟨we, ce, be⟩
  cases we with
  | some e =>
    refine ⟨⟨[CommitEvent.writeOp true lastAcceptedHeight], ?_⟩, ?_, ?_⟩ <;>
      simp [CommitRun, CommitBatchRun]
  | none =>
    cases ce with
    | some e =>
      refine ⟨⟨[CommitEvent.writeOp true lastAcceptedHeight,
        CommitEvent.commitBatchOp], ?_⟩, ?_, ?_⟩ <;>
        simp [CommitRun, CommitBatchRun]
    | none =>
      refine ⟨⟨[CommitEvent.writeOp true lastAcceptedHeight, CommitEvent.commitBatchOp,
        CommitEvent.batchWriteOp], ?_⟩, ?_, ?_⟩ <;>
        simp [CommitRun, CommitBatchRun]

/-- C7 witness: with every collaborator succeeding at height 5, the cycle is
exactly write(true, 5), commit-batch, flush, abort, with no error. -/
theorem commit_protocol_witness :
    CommitRun 5 { writeErr := none, commitBatchErr := none, batchWriteErr := none } =
      ([CommitEvent.writeOp true 5, CommitEvent.commitBatchOp,
        CommitEvent.batchWriteOp, CommitEvent.abortOp], none) :=
  (commit_protocol 5
    { writeErr := none, commitBatchErr := none, batchWriteErr := none }).2.2 rfl rfl

/-! ### Genesis initialization (state.go lines 1405-1460, 1132-1199, 639-646) -/

/-- The singleton section of the store: `shouldInit`/`doneInit` read and
write the `initializedKey` marker (state.go lines 639-646); `initDone`
models the presence of that key. -/
structure SingletonDB where
  initDone : Bool
deriving DecidableEq, Repr

/-- `state.shouldInit`: the store must be seeded iff the marker is absent. -/
def shouldInit (db : SingletonDB) : Bool :=
  !db.initDone

/-- `state.doneInit`: persist the marker. -/
def doneInit (_ : SingletonDB) : SingletonDB :=
  { initDone := true }

/-- A validator of the parsed genesis, carrying the potential reward added
to the initial supply. The reward itself is modelled from the spec
(`rewards.Calculate` is not under src/): an opaque uint64 per validator. -/
structure GenesisValidator where
  reward : Nat
deriving DecidableEq, Repr

/-- A chain-creation transaction of the parsed genesis with its network ID
(`CreateChainTx.NetworkID`). -/
structure GenesisChain where
  networkID : Nat
deriving DecidableEq, Repr

/-- The parsed genesis specification (`genesis.Genesis`), restricted to the
fields `syncGenesis` reads for supply accounting and the network check. -/
structure GenesisData where
  timestamp : Nat
  initialSupply : Nat
  validators : List GenesisValidator
  chains : List GenesisChain
deriving DecidableEq, Repr

/-- Errors of genesis initialization: `avax.ErrWrongNetworkID` from the
chain loop, or an arithmetic overflow from the supply accumulation. -/
inductive GenErr where
  | wrongNetworkID
  | overflow
deriving DecidableEq, Repr

/-- The validator loop of `syncGenesis` (state.go lines 1145-1177) as it
affects the current supply: each validator's potential reward is added to
the supply with checked uint64 addition. -/
def supplyAfterValidators (g : GenesisData) : Option Nat :=
  g.validators.foldlM (fun supply v => add64 supply v.reward) g.initialSupply

/-- The chain loop of `syncGenesis` (state.go lines 1179-1193): every chain
the genesis bytes say to create must carry the chain context's network ID,
otherwise initialization fails with `avax.ErrWrongNetworkID`. -/
def checkGenesisChains (ctxNetworkID : Nat) : List GenesisChain → Except GenErr Unit
  | [] => Except.ok ()
  | c :: t =>
    if c.networkID ≠ ctxNetworkID then Except.error GenErr.wrongNetworkID
    else checkGenesisChains ctxNetworkID t

/-- `state.syncGenesis` (state.go lines 1132-1199), modelled by its supply
accounting and failure behaviour: run the validator loop (checked supply
accumulation), then the chain loop (network-ID check); only when both
succeed is the store seeded via `write(false, 0)` — the returned value is
the final supply of a seeded store. -/
def syncGenesis (ctxNetworkID : Nat) (g : GenesisData) : Except GenErr Nat :=
  match supplyAfterValidators g with
  | none => Except.error GenErr.overflow
  | some supply =>
    match checkGenesisChains ctxNetworkID g.chains with
    | Except.error e => Except.error e
    | Except.ok _ => Except.ok supply

/-- The events of one `sync` call: seeding from genesis (`init`, which runs
`syncGenesis`, `doneInit` and `Commit`), and loading the existing state. -/
inductive SyncEvent where
  | initOp
  | loadOp
deriving DecidableEq, Repr

/-- `state.sync` (state.go lines 1405-1428): consult `shouldInit`; seed from
genesis only when the marker is absent (propagating any genesis failure and
persisting the marker on success); then always load the existing state. -/
def sync (ctxNetworkID : Nat) (g : GenesisData) (db : SingletonDB) :
    Except GenErr (List SyncEvent × SingletonDB) :=
  if shouldInit db then
    match syncGenesis ctxNetworkID g with
    | Except.error e => Except.error e
    | Except.ok _ => Except.ok ([SyncEvent.initOp, SyncEvent.loadOp], doneInit db)
  else
    Except.ok ([SyncEvent.loadOp], db)

/-- C8: on a store whose marker is present, `sync` skips the genesis path
entirely — it only loads, touches no genesis data and leaves the marker
alone; consequently after any successful `sync`, a second `sync` (with any
genesis bytes) never re-seeds. -/
theorem sync_skips_init (ctxNetworkID : Nat) (g : GenesisData) (db : SingletonDB) :
    (db.initDone = true →
      sync ctxNetworkID g db = Except.ok ([SyncEvent.loadOp], db)) ∧
    (∀ evs db' ctx2 g2, sync ctxNetworkID g db = Except.ok (evs, db') →
      sync ctx2 g2 db' = Except.ok ([SyncEvent.loadOp], db')) := by
  constructor
  · intro hdone
    simp [sync, shouldInit, hdone]
  · intro evs db' ctx2 g2 h
    have hdone : db'.initDone = true := by
      cases hd : db.initDone with
      | true =>
        simp only [sync, shouldInit, hd, Bool.not_true, Bool.false_eq_true,
          if_false, Except.ok.injEq, Prod.mk.injEq] at h
        obtain ⟨-, h2⟩ := h
        subst h2
        exact hd
      | false =>
        simp only [sync, shouldInit, hd, Bool.not_false, if_true] at h
        cases hg : syncGenesis ctxNetworkID g with
        | error e => rw [hg] at h; exact absurd h (by simp)
        | ok s =>
          rw [hg] at h
          simp only [Except.ok.injEq, Prod.mk.injEq] at h
          obtain ⟨-, h2⟩ := h
          subst h2
          rfl
    simp [sync, shouldInit, hdone]

/-- C8 witness: a store with the marker present only loads, and a fresh
store, once synced, only loads on the second call even with a different
genesis. -/
theorem sync_skips_init_witness :
    sync 9 { timestamp := 0, initialSupply := 3, validators := [], chains := [] }
        { initDone := true } =
      Except.ok ([SyncEvent.loadOp], { initDone := true }) :=
  (sync_skips_init 9
    { timestamp := 0, initialSupply := 3, validators := [], chains := [] }
    { initDone := true }).1 rfl

/-- C9: during genesis initialization, if the supply accounting of the
validator loop succeeds but some chain of the genesis specification does
not carry the chain context's network ID, `syncGenesis` fails with
`avax.ErrWrongNetworkID` instead of seeding the store. -/
theorem syncGenesis_wrong_network (ctxNetworkID : Nat) (g : GenesisData)
    (hsupply : (supplyAfterValidators g).isSome = true)
    (hchain : g.chains.any (fun c => c.networkID != ctxNetworkID) = true) :
    syncGenesis ctxNetworkID g = Except.error GenErr.wrongNetworkID := by
  unfold syncGenesis
  cases hs : supplyAfterValidators g with
  | none => rw [hs] at hsupply; simp at hsupply
  | some supply =>
    have hbad : ∀ l : List GenesisChain,
        l.any (fun c => c.networkID != ctxNetworkID) = true →
        checkGenesisChains ctxNetworkID l = Except.error GenErr.wrongNetworkID := by
      intro l
      induction l with
      | nil => intro hl; simp at hl
      | cons c t ih =>
        intro hl
        simp only [List.any_cons, Bool.or_eq_true, bne_iff_ne] at hl
        simp only [checkGenesisChains]
        by_cases hc : c.networkID ≠ ctxNetworkID
        · rw [if_pos hc]
        · rw [if_neg hc]
          rcases hl with hl | hl
          · exact absurd hl hc
          · exact ih hl
    rw [hbad g.chains hchain]

/-- C9 witness: a genesis with one validator (reward 7) and a chain built
for network 6 fails against chain context network 5 with the
wrong-network-ID error. -/
theorem syncGenesis_wrong_network_witness :
    syncGenesis 5
      { timestamp := 0, initialSupply := 100,
        validators := [{ reward := 7 }], chains := [{ networkID := 6 }] } =
      Except.error GenErr.wrongNetworkID :=
  syncGenesis_wrong_network 5
    { timestamp := 0, initialSupply := 100,
      validators := [{ reward := 7 }], chains := [{ networkID := 6 }] }
    (by decide) (by decide)

/-! ### Checksum (state.go lines 1477-1479) -/

/-- The model of `ids.Empty`, the all-zero ID. -/
def idsEmpty : Nat := 0

/-- The fields of the `state` object that could conceivably feed a
checksum: staged and committed data are summarized by the singleton
section, the last accepted height and the current supply. -/
structure MerkleState where
  singleton : SingletonDB
  lastAcceptedHeight : Nat
  supply : Nat
deriving DecidableEq, Repr

/-- `state.Checksum` from state.go lines 1477-1479: the receiver is ignored
(`func (*state) Checksum() ids.ID`) and `ids.Empty` is returned. -/
def Checksum (_ : MerkleState) : Nat :=
  idsEmpty

/-- C10: `Checksum` is a constant function — every state, whatever has been
staged or committed, advertises the empty ID, so the checksum never
reflects the store's contents. -/
theorem checksum_constant (s t : MerkleState) :
    Checksum s = idsEmpty ∧ Checksum s = Checksum t :=
  ⟨rfl, rfl⟩

end Platform
